import Mathlib

/-!
# Verification of the nanowatch measurement core

Shallow embedding of `src/nanowatch/core/timer.py` and
`src/nanowatch/core/collector.py`.  Python integers are modelled as `Int`
(timestamps are nanosecond integers from `time.perf_counter_ns`), Python
`float` division (`/`) as exact division in `ℚ`, Python floor division
(`//`) as `Int.fdiv`, Python lists as `List`, and the string-keyed
`context` dict as an association list of strings.  Methods that mutate an
object are state-passing functions returning the updated object.
-/

set_option autoImplicit false

namespace Nanowatch

/-- The `context` mapping attached to a record: a string-keyed dict of
scalar values, modelled as an association list (values as strings). -/
abbrev Ctx := List (String × String)

/-- `TimingRecord` dataclass from `timer.py`: immutable record of a single
measurement with fields `name`, `start_ns`, `end_ns`, `context`. -/
structure TimingRecord where
  name : String
  start_ns : Int
  end_ns : Int
  context : Ctx
deriving DecidableEq, Repr

namespace TimingRecord

/-- `duration_ns` property: `return self.end_ns - self.start_ns`. -/
def duration_ns (r : TimingRecord) : Int :=
  r.end_ns - r.start_ns

/-- `duration_us` property: `return self.duration_ns / 1_000`
(Python true division, modelled exactly in `ℚ`). -/
def duration_us (r : TimingRecord) : ℚ :=
  (r.duration_ns : ℚ) / 1000

/-- `duration_ms` property: `return self.duration_ns / 1_000_000`. -/
def duration_ms (r : TimingRecord) : ℚ :=
  (r.duration_ns : ℚ) / 1000000

/-- `duration_s` property: `return self.duration_ns / 1_000_000_000`. -/
def duration_s (r : TimingRecord) : ℚ :=
  (r.duration_ns : ℚ) / 1000000000

end TimingRecord

/-- Round-half-to-even on a rational, modelling Python's `round` tie
behaviour (banker's rounding) at integer precision. -/
def roundHalfEven (q : ℚ) : Int :=
  let f := ⌊q⌋
  if q - f < 1/2 then f
  else if 1/2 < q - f then f + 1
  else if f % 2 = 0 then f else f + 1

/-- Python's `round(x, d)`: round to `d` decimal places, half to even. -/
def pyRound (q : ℚ) (d : Nat) : ℚ :=
  (roundHalfEven (q * 10 ^ d) : ℚ) / 10 ^ d

namespace TimingRecord

/-- `best_human_duration` from `timer.py`, translated clause by clause:
tests `duration_ns < 1_000`, then `duration_us < 1_000`, then
`duration_ms < 1_000`, returning the raw integer for `ns` and a rounded
value (3, 3, 6 decimals) for `us`, `ms`, `s`. -/
def best_human_duration (r : TimingRecord) : ℚ × String :=
  if r.duration_ns < 1000 then ((r.duration_ns : ℚ), "ns")
  else if r.duration_us < 1000 then (pyRound r.duration_us 3, "us")
  else if r.duration_ms < 1000 then (pyRound r.duration_ms 3, "ms")
  else (pyRound r.duration_s 6, "s")

end TimingRecord

/-- The spec's restatement of the unit-selection rule, with every
threshold expressed directly on the nanosecond value: strict `< 1000` at
each scale, i.e. boundaries at 10^3, 10^6 and 10^9 nanoseconds. -/
def bestHumanSpec (ns : Int) : ℚ × String :=
  if ns < 1000 then ((ns : ℚ), "ns")
  else if ns < 1000000 then (pyRound ((ns : ℚ) / 1000) 3, "us")
  else if ns < 1000000000 then (pyRound ((ns : ℚ) / 1000000) 3, "ms")
  else (pyRound ((ns : ℚ) / 1000000000) 6, "s")

/-- `Timer` from `timer.py`.  `__init__` sets `self.context = context or
{}`, `self._start_ns = None`, `self._record = None`; the underscore
fields hold `Option` values exactly as the Python attributes hold
`None`. -/
structure Timer where
  name : String
  context : Ctx
  _start_ns : Option Int
  _record : Option TimingRecord
deriving DecidableEq, Repr

namespace Timer

/-- Python truthiness of `context or {}`: `None` and the empty dict are
falsy and replaced by a fresh empty dict. -/
def ctxOr (context : Option Ctx) : Ctx :=
  match context with
  | none => []
  | some c => if c.isEmpty then [] else c

/-- `Timer.__init__(name, context=None)`. -/
def init (name : String) (context : Option Ctx) : Timer :=
  { name := name, context := ctxOr context, _start_ns := none, _record := none }

/-- `Timer.start()`: stores the clock reading (passed explicitly as
`now`, standing for `time.perf_counter_ns()`) and returns `self`.  The
source performs no state check: it succeeds from every state. -/
def start (t : Timer) (now : Int) : Timer :=
  { t with _start_ns := some now }

/-- `Timer.stop()`: builds a `TimingRecord` from `self._start_ns` and the
current clock reading `now`, stores it, and returns it.  The source
performs no state check and raises nothing.  When `_start_ns` is `None`
the Python code still constructs and returns a record, but one whose
`start_ns` field holds `None` outside the declared `int` type (it blows
up only later, when a duration is computed); that ill-typed record is
not representable here, so this branch is modelled as `none`. -/
def stop (t : Timer) (now : Int) : Option (Timer × TimingRecord) :=
  match t._start_ns with
  | some s =>
      let r : TimingRecord :=
        { name := t.name, start_ns := s, end_ns := now, context := t.context }
      some ({ t with _record := some r }, r)
  | none => none

/-- `Timer.record` property: the completed record, or `None` if not
yet stopped. -/
def record (t : Timer) : Option TimingRecord :=
  t._record

/-- Spec §3 state machine, expressed on the code's attributes: a Timer is
`running` when it has been started but has not yet produced a record. -/
def isRunning (t : Timer) : Bool :=
  t._start_ns.isSome && t._record.isNone

end Timer

/-- Aggregate statistics returned by `Collector.stats` (the Python dict
with keys `count`, `min_ns`, `max_ns`, `avg_ns`, `total_ns`). -/
structure Stats where
  count : Nat
  min_ns : Int
  max_ns : Int
  avg_ns : Int
  total_ns : Int
deriving DecidableEq, Repr

/-- `Collector` from `collector.py`: wraps the `_records` list. -/
structure Collector where
  _records : List TimingRecord
deriving DecidableEq, Repr

namespace Collector

/-- `Collector.__init__`: empty records list. -/
def init : Collector := ⟨[]⟩

/-- `Collector.add(record)`: `self._records.append(record)`. -/
def add (c : Collector) (r : TimingRecord) : Collector :=
  ⟨c._records ++ [r]⟩

/-- `Collector.all()`: `return list(self._records)` — a copy of the
records in insertion order.  Values are immutable in the embedding, so
the copy is the projection itself. -/
def all (c : Collector) : List TimingRecord :=
  c._records

/-- `Collector.by_name(name)`:
`[r for r in self._records if r.name == name]`. -/
def by_name (c : Collector) (name : String) : List TimingRecord :=
  c._records.filter (fun r => r.name == name)

/-- One step of `Collector.grouped()`'s loop:
`groups[record.name].append(record)` on a `defaultdict(list)`.  A Python
dict keeps keys in first-insertion order, so a missing key is appended at
the end with the one-element list. -/
def gadd (g : List (String × List TimingRecord)) (r : TimingRecord) :
    List (String × List TimingRecord) :=
  match g with
  | [] => [(r.name, [r])]
  | (k, v) :: rest =>
      if k = r.name then (k, v ++ [r]) :: rest else (k, v) :: gadd rest r

/-- `Collector.grouped()`: fold the records through the `defaultdict`
loop, starting from the empty dict. -/
def grouped (c : Collector) : List (String × List TimingRecord) :=
  c._records.foldl gadd []

/-- `Collector.stats(name)`: `None` when `by_name` is empty, else the
dict of count / min / max / floor-average / total over the matching
records' `duration_ns` values.  Python's `min`/`max` on a non-empty list
are folds of the binary `min`/`max`; `//` is `Int.fdiv`. -/
def stats (c : Collector) (name : String) : Option Stats :=
  match (c.by_name name).map TimingRecord.duration_ns with
  | [] => none
  | d :: ds =>
      some { count := (d :: ds).length,
             min_ns := ds.foldl min d,
             max_ns := ds.foldl max d,
             avg_ns := (d :: ds).sum.fdiv ((d :: ds).length : Int),
             total_ns := (d :: ds).sum }

/-- `Collector.clear()`: `self._records.clear()` — the state after is the
empty list, whatever it was before. -/
def clear (_c : Collector) : Collector :=
  ⟨[]⟩

/-- Convenience: a whole sequence of `add` calls. -/
def addAll (c : Collector) (rs : List TimingRecord) : Collector :=
  rs.foldl add c

end Collector

/-- Keys of the association list built by `grouped` (the dict's key
view, in insertion order). -/
def keysOf (g : List (String × List TimingRecord)) : List String :=
  g.map Prod.fst

/-- Total lookup in the association list built by `grouped`; `[]` for an
absent key (used only together with key membership). -/
def lookupD (n : String) : List (String × List TimingRecord) → List TimingRecord
  | [] => []
  | (k, v) :: rest => if k = n then v else lookupD n rest

/-! ## Sample values used by witnesses -/

def r100 : TimingRecord := ⟨"fn", 0, 100, []⟩

def rb200 : TimingRecord := ⟨"b", 0, 200, []⟩

def r300 : TimingRecord := ⟨"fn", 0, 300, []⟩

/-- A collector holding two `"fn"` records (durations 100 and 300) around
one `"b"` record. -/
def sampleC : Collector := ⟨[r100, rb200, r300]⟩

/-- A Timer in the `stopped` state: exactly the value produced by
`Timer.init "x" none |>.start 5 |>.stop 10`. -/
def stoppedT : Timer := ⟨"x", [], some 5, some ⟨"x", 5, 10, []⟩⟩

/-! ## Helper lemmas -/

lemma foldl_min_le (d : Int) (ds : List Int) :
    ds.foldl min d ≤ d ∧ ∀ x ∈ ds, ds.foldl min d ≤ x := by
  induction ds generalizing d with
  | nil => exact ⟨le_refl d, by simp⟩
  | cons y ys ih =>
    simp only [List.foldl]
    obtain ⟨h1, h2⟩ := ih (min d y)
    refine ⟨le_trans h1 (min_le_left d y), ?_⟩
    intro x hx
    rcases List.mem_cons.mp hx with rfl | hx2
    · exact le_trans h1 (min_le_right d x)
    · exact h2 x hx2

lemma foldl_min_mem (d : Int) (ds : List Int) :
    ds.foldl min d = d ∨ ds.foldl min d ∈ ds := by
  induction ds generalizing d with
  | nil => exact Or.inl rfl
  | cons y ys ih =>
    simp only [List.foldl]
    rcases ih (min d y) with h | h
    · rcases min_choice d y with h2 | h2
      · exact Or.inl (h.trans h2)
      · exact Or.inr (List.mem_cons.mpr (Or.inl (h.trans h2)))
    · exact Or.inr (List.mem_cons.mpr (Or.inr h))

lemma foldl_max_le (d : Int) (ds : List Int) :
    d ≤ ds.foldl max d ∧ ∀ x ∈ ds, x ≤ ds.foldl max d := by
  induction ds generalizing d with
  | nil => exact ⟨le_refl d, by simp⟩
  | cons y ys ih =>
    simp only [List.foldl]
    obtain ⟨h1, h2⟩ := ih (max d y)
    refine ⟨le_trans (le_max_left d y) h1, ?_⟩
    intro x hx
    rcases List.mem_cons.mp hx with rfl | hx2
    · exact le_trans (le_max_right d x) h1
    · exact h2 x hx2

lemma foldl_max_mem (d : Int) (ds : List Int) :
    ds.foldl max d = d ∨ ds.foldl max d ∈ ds := by
  induction ds generalizing d with
  | nil => exact Or.inl rfl
  | cons y ys ih =>
    simp only [List.foldl]
    rcases ih (max d y) with h | h
    · rcases max_choice d y with h2 | h2
      · exact Or.inl (h.trans h2)
      · exact Or.inr (List.mem_cons.mpr (Or.inl (h.trans h2)))
    · exact Or.inr (List.mem_cons.mpr (Or.inr h))

lemma addAll_all (c : Collector) (rs : List TimingRecord) :
    (c.addAll rs).all = c.all ++ rs := by
  induction rs generalizing c with
  | nil => simp [Collector.addAll, Collector.all]
  | cons r rs ih =>
    simp only [Collector.addAll, List.foldl] at *
    rw [ih]
    simp [Collector.add, Collector.all]

/-! ## Claim theorems -/

/-- Claim C1: `stats(name)` is absent exactly when no stored record has
that name; otherwise its `count` is the number of matching records, its
`min_ns`/`max_ns` are the minimum/maximum of the matching durations, its
`total_ns` is their sum, its `avg_ns` is the floor division of that sum
by the count, and the whole result is a function of the current
`by_name(name)` result alone. -/
theorem stats_from_by_name : ∀ (c : Collector) (n : String),
    (c.stats n = none ↔ c.by_name n = []) ∧
    (∀ s, c.stats n = some s →
      s.count = (c.by_name n).length ∧
      s.total_ns = ((c.by_name n).map TimingRecord.duration_ns).sum ∧
      s.min_ns ∈ (c.by_name n).map TimingRecord.duration_ns ∧
      (∀ x ∈ (c.by_name n).map TimingRecord.duration_ns, s.min_ns ≤ x) ∧
      s.max_ns ∈ (c.by_name n).map TimingRecord.duration_ns ∧
      (∀ x ∈ (c.by_name n).map TimingRecord.duration_ns, x ≤ s.max_ns) ∧
      s.avg_ns = s.total_ns.fdiv (s.count : Int)) ∧
    (∀ c2 : Collector, c.by_name n = c2.by_name n → c.stats n = c2.stats n) := by
  intro c n
  refine ⟨?_, ?_, ?_⟩
  · cases h : (c.by_name n).map TimingRecord.duration_ns with
    | nil =>
      have hb : c.by_name n = [] := by simpa using h
      simp [Collector.stats, h, hb]
    | cons d ds =>
      have hb : c.by_name n ≠ [] := by
        intro hb
        rw [hb] at h
        simp at h
      simp [Collector.stats, h, hb]
  · intro s hs
    cases h : (c.by_name n).map TimingRecord.duration_ns with
    | nil =>
      unfold Collector.stats at hs
      rw [h] at hs
      simp at hs
    | cons d ds =>
      unfold Collector.stats at hs
      rw [h] at hs
      simp only [Option.some.injEq] at hs
      subst hs
      have hlen : (c.by_name n).length = (d :: ds).length := by
        rw [← h, List.length_map]
      refine ⟨by simpa using hlen.symm, rfl, ?_, ?_, ?_, ?_, rfl⟩
      · rcases foldl_min_mem d ds with h2 | h2
        · simp [h2]
        · simp [List.mem_cons, h2]
      · intro x hx
        rcases List.mem_cons.mp hx with rfl | hx2
        · exact (foldl_min_le x ds).1
        · exact (foldl_min_le d ds).2 x hx2
      · rcases foldl_max_mem d ds with h2 | h2
        · simp [h2]
        · simp [List.mem_cons, h2]
      · intro x hx
        rcases List.mem_cons.mp hx with rfl | hx2
        · exact (foldl_max_le x ds).1
        · exact (foldl_max_le d ds).2 x hx2
  · intro c2 hbn
    unfold Collector.stats
    rw [hbn]

/-- The stats value of `sampleC` for name `"fn"`. -/
def sFn : Stats := ⟨2, 100, 300, 200, 400⟩

/-- Claim C1 witness: concrete collector with `"fn"` durations 100 and
300; the average is the floor division of the total by the count. -/
theorem stats_from_by_name_witness :
    sFn.avg_ns = sFn.total_ns.fdiv (sFn.count : Int) :=
  ((stats_from_by_name sampleC "fn").2.1 sFn (by decide)).2.2.2.2.2.2

/-- Claim C5: the records returned by `all()` are exactly the added
records, in insertion order and with matching count; starting from a
fresh collector, the snapshot is the added list itself.  The source's
`all` returns `list(self._records)`, a fresh copy, so a caller mutating
the returned list cannot touch `_records` — in this embedding all values
are immutable and `all` is a pure projection of the collector state. -/
theorem all_snapshot_insertion_order : ∀ (c : Collector) (rs : List TimingRecord),
    (c.addAll rs).all = c.all ++ rs ∧
    ((c.addAll rs).all).length = c.all.length + rs.length ∧
    (Collector.init.addAll rs).all = rs := by
  intro c rs
  refine ⟨addAll_all c rs, ?_, ?_⟩
  · rw [addAll_all]
    simp
  · rw [addAll_all]
    simp [Collector.init, Collector.all]

/-- Claim C6: `by_name(n)` keeps exactly the stored records whose name
equals `n` under plain string equality (case-sensitive, no
normalization), in insertion order (a sublist of the store), and is the
empty list — not an error — when no stored record has that name. -/
theorem by_name_exact_filter : ∀ (c : Collector) (n : String),
    (∀ r : TimingRecord, r ∈ c.by_name n ↔ r ∈ c._records ∧ r.name = n) ∧
    (c.by_name n).Sublist c._records ∧
    ((∀ r ∈ c._records, r.name ≠ n) → c.by_name n = []) := by
  intro c n
  refine ⟨?_, ?_, ?_⟩
  · intro r
    simp [Collector.by_name, List.mem_filter]
  · exact List.filter_sublist _
  · intro h
    simp only [Collector.by_name, List.filter_eq_nil_iff]
    intro r hr
    simpa using h r hr

/-- Claim C6 witness: the sample collector has no record named `"zzz"`,
and `by_name` returns the empty list for it. -/
theorem by_name_exact_filter_witness : sampleC.by_name "zzz" = [] :=
  (by_name_exact_filter sampleC "zzz").2.2 (by decide)

lemma lookupD_gadd (g : List (String × List TimingRecord)) (r : TimingRecord) (n : String) :
    lookupD n (Collector.gadd g r) =
      if r.name = n then lookupD n g ++ [r] else lookupD n g := by
  induction g with
  | nil =>
    by_cases h : r.name = n <;> simp [Collector.gadd, lookupD, h]
  | cons kv rest ih =>
    obtain ⟨k, v⟩ := kv
    by_cases hk : k = r.name
    · subst hk
      by_cases hn : r.name = n <;> simp [Collector.gadd, lookupD, hn]
    · simp only [Collector.gadd, if_neg hk]
      by_cases hkn : k = n
      · have hrn : ¬ r.name = n := fun hh => hk (hkn.trans hh.symm)
        simp [lookupD, hkn, hrn]
      · simp [lookupD, hkn, ih]

lemma mem_keysOf_gadd (g : List (String × List TimingRecord)) (r : TimingRecord) (n : String) :
    n ∈ keysOf (Collector.gadd g r) ↔ n ∈ keysOf g ∨ n = r.name := by
  induction g with
  | nil => simp [Collector.gadd, keysOf]
  | cons kv rest ih =>
    obtain ⟨k, v⟩ := kv
    by_cases hk : k = r.name
    · subst hk
      rw [show Collector.gadd ((r.name, v) :: rest) r = (r.name, v ++ [r]) :: rest from by
        simp [Collector.gadd]]
      simp only [keysOf, List.map_cons, List.mem_cons]
      tauto
    · simp only [Collector.gadd, if_neg hk, keysOf, List.map_cons, List.mem_cons] at *
      rw [ih]
      tauto

lemma lookupD_foldl_gadd (rs : List TimingRecord) :
    ∀ (g : List (String × List TimingRecord)) (n : String),
      lookupD n (rs.foldl Collector.gadd g) =
        lookupD n g ++ rs.filter (fun r => r.name == n) := by
  induction rs with
  | nil => intro g n; simp
  | cons r rs ih =>
    intro g n
    simp only [List.foldl, List.filter_cons]
    rw [ih, lookupD_gadd]
    by_cases h : r.name = n
    · simp [h]
    · simp [beq_iff_eq, h]

lemma mem_keysOf_foldl_gadd (rs : List TimingRecord) :
    ∀ (g : List (String × List TimingRecord)) (n : String),
      n ∈ keysOf (rs.foldl Collector.gadd g) ↔
        n ∈ keysOf g ∨ n ∈ rs.map TimingRecord.name := by
  induction rs with
  | nil => intro g n; simp
  | cons r rs ih =>
    intro g n
    simp only [List.foldl, List.map_cons, List.mem_cons]
    rw [ih, mem_keysOf_gadd]
    tauto

/-- Claim C7: the keys of `grouped()` are exactly the names occurring
among the stored records, and the group of every name `n` is `by_name n`
(the matching records in insertion order); `grouped` is a pure function
of the current records, recomputed on each call. -/
theorem grouped_keys_and_groups : ∀ (c : Collector) (n : String),
    (n ∈ keysOf c.grouped ↔ n ∈ c._records.map TimingRecord.name) ∧
    lookupD n c.grouped = c.by_name n := by
  intro c n
  constructor
  · simpa [Collector.grouped, keysOf] using mem_keysOf_foldl_gadd c._records [] n
  · simpa [Collector.grouped, Collector.by_name, lookupD] using
      lookupD_foldl_gadd c._records [] n

/-- Claim C7 witness: on the sample collector the `"fn"` group is the
two `"fn"` records in insertion order. -/
theorem grouped_keys_and_groups_witness :
    lookupD "fn" sampleC.grouped = sampleC.by_name "fn" :=
  (grouped_keys_and_groups sampleC "fn").2

/-- Claim C8: after `clear()` the collector is literally the freshly
constructed state, so `all()` is empty, `by_name` is empty for every
name, `grouped()` is the empty mapping and `stats` is absent for every
name. -/
theorem clear_behaves_like_fresh : ∀ (c : Collector) (n : String),
    c.clear = Collector.init ∧ c.clear.all = [] ∧ c.clear.by_name n = [] ∧
    c.clear.grouped = [] ∧ c.clear.stats n = none :=
  fun _ _ => ⟨rfl, rfl, rfl, rfl, rfl⟩

lemma div_1000_lt_iff (a : Int) : (a : ℚ) / 1000 < 1000 ↔ a < 1000000 := by
  rw [div_lt_iff₀ (by norm_num : (0:ℚ) < 1000)]
  norm_num
  exact_mod_cast Iff.rfl

lemma div_1000000_lt_iff (a : Int) : (a : ℚ) / 1000000 < 1000 ↔ a < 1000000000 := by
  rw [div_lt_iff₀ (by norm_num : (0:ℚ) < 1000000)]
  norm_num
  exact_mod_cast Iff.rfl

/-- Claim C4: `best_human_duration()` applies the scales in order with a
strict `< 1000` test at each: it agrees everywhere with the rule stated
on the raw nanosecond value (boundaries at 10^3, 10^6, 10^9 ns), and at
the boundary inputs 999, 1000, 10^6 and 10^9 it selects `ns`, `us`, `ms`
and `s` respectively; the `ns` branch returns the unrounded integer, the
others round to 3, 3 and 6 decimal places. -/
theorem best_human_duration_correct :
    (∀ r : TimingRecord, r.best_human_duration = bestHumanSpec r.duration_ns) ∧
    (TimingRecord.best_human_duration ⟨"x", 0, 999, []⟩ = (999, "ns")) ∧
    (TimingRecord.best_human_duration ⟨"x", 0, 1000, []⟩ = (1, "us")) ∧
    (TimingRecord.best_human_duration ⟨"x", 0, 1000000, []⟩ = (1, "ms")) ∧
    (TimingRecord.best_human_duration ⟨"x", 0, 1000000000, []⟩ = (1, "s")) := by
  refine ⟨?_, ?_, ?_, ?_, ?_⟩
  · intro r
    unfold TimingRecord.best_human_duration bestHumanSpec TimingRecord.duration_us
      TimingRecord.duration_ms TimingRecord.duration_s
    simp only [div_1000_lt_iff, div_1000000_lt_iff]
  · decide
  · norm_num [TimingRecord.best_human_duration, TimingRecord.duration_us,
      TimingRecord.duration_ns, pyRound, roundHalfEven]
  · norm_num [TimingRecord.best_human_duration, TimingRecord.duration_us,
      TimingRecord.duration_ms, TimingRecord.duration_ns, pyRound, roundHalfEven]
  · norm_num [TimingRecord.best_human_duration, TimingRecord.duration_us,
      TimingRecord.duration_ms, TimingRecord.duration_s, TimingRecord.duration_ns,
      pyRound, roundHalfEven]

/-- Claim C9: for a record from a valid start/stop pair the duration is
the non-negative difference of the timestamps, and every unit conversion
is the exact ratio of `duration_ns` (Python's float division modelled as
exact division in `ℚ`). -/
theorem record_durations_exact : ∀ r : TimingRecord, r.start_ns ≤ r.end_ns →
    r.duration_ns = r.end_ns - r.start_ns ∧ 0 ≤ r.duration_ns ∧
    r.duration_us = (r.duration_ns : ℚ) / 1000 ∧
    r.duration_ms = (r.duration_ns : ℚ) / 1000000 ∧
    r.duration_s = (r.duration_ns : ℚ) / 1000000000 := by
  intro r h
  refine ⟨rfl, ?_, rfl, rfl, rfl⟩
  unfold TimingRecord.duration_ns
  omega

/-- A concrete valid record: start 2, end 1002. -/
def rK : TimingRecord := ⟨"k", 2, 1002, []⟩

/-- Claim C9 witness: the record timed from 2 to 1002 has duration 1000
and exact unit ratios. -/
theorem record_durations_exact_witness :
    rK.duration_ns = rK.end_ns - rK.start_ns ∧ 0 ≤ rK.duration_ns ∧
    rK.duration_us = (rK.duration_ns : ℚ) / 1000 ∧
    rK.duration_ms = (rK.duration_ns : ℚ) / 1000000 ∧
    rK.duration_s = (rK.duration_ns : ℚ) / 1000000000 :=
  record_durations_exact rK (by decide)

/-- Claim C2 counterexample: the spec says `stop()` on a non-`running`
Timer fails at the call rather than returning a record, but the code has
no state check.  `stoppedT` — reachable as
`Timer.init "x" none |>.start 5 |>.stop 10` — is in the `stopped` state
(not running), yet `stop` at clock 20 returns a record again. -/
theorem timer_usage_errors_refuted :
    ¬ (∀ (t : Timer) (now : Int),
        t.isRunning = false → (t.stop now).isSome = false) := by
  intro h
  exact absurd (h stoppedT 20 (by decide)) (by decide)

/-- Claim C2 amended: the code raises no usage error. `start()` succeeds
from every state and simply overwrites `_start_ns`; `stop()` on any Timer
whose `_start_ns` is set (running or already stopped) returns a fresh
record built from the retained start; only a never-started `stop()`
produces no well-typed record (the Python code stores `None` into the
record's `int` field and fails later, when a duration is computed, not at
the `stop()` call). -/
theorem timer_misuse_returns_record : ∀ (t : Timer) (now s : Int),
    (t.start now)._start_ns = some now ∧
    (t._start_ns = some s →
      t.stop now =
        some ({ t with _record := some ⟨t.name, s, now, t.context⟩ },
          ⟨t.name, s, now, t.context⟩)) ∧
    (t._start_ns = none → t.stop now = none) := by
  intro t now s
  refine ⟨rfl, ?_, ?_⟩
  · intro h
    simp [Timer.stop, h]
  · intro h
    simp [Timer.stop, h]

/-- Claim C2 amended witness: stopping the already-stopped `stoppedT` at
clock 20 returns a fresh record timed 5 → 20. -/
theorem timer_misuse_returns_record_witness :
    stoppedT.stop 20 = some (⟨"x", [], some 5, some ⟨"x", 5, 20, []⟩⟩,
      ⟨"x", 5, 20, []⟩) := by
  have h := (timer_misuse_returns_record stoppedT 20 5).2.1 rfl
  simpa [stoppedT] using h

lemma ctxOr_some (c : Ctx) : Timer.ctxOr (some c) = c := by
  cases c <;> simp [Timer.ctxOr]

/-- Claim C10: a Timer built with `context=None` produces records whose
context is the empty mapping; in general the record produced by a
start/stop pair carries exactly the construction-time name and context,
the `record` accessor returns `None` before `stop()` (after `__init__`
and after `start()`), and returns the produced record after `stop()`. -/
theorem timer_record_round_trip :
    ∀ (nm : String) (ctx : Option Ctx) (n1 n2 : Int) (t2 : Timer)
      (r : TimingRecord),
    ((Timer.init nm ctx).start n1).stop n2 = some (t2, r) →
      r.name = nm ∧ r.start_ns = n1 ∧ r.end_ns = n2 ∧
      (ctx = none → r.context = []) ∧
      (∀ cx, ctx = some cx → r.context = cx) ∧
      t2.record = some r ∧
      (Timer.init nm ctx).record = none ∧
      ((Timer.init nm ctx).start n1).record = none := by
  intro nm ctx n1 n2 t2 r h
  simp only [Timer.init, Timer.start, Timer.stop, Option.some.injEq, Prod.mk.injEq] at h
  obtain ⟨ht, hr⟩ := h
  subst ht
  subst hr
  refine ⟨rfl, rfl, rfl, ?_, ?_, rfl, rfl, rfl⟩
  · intro hc
    subst hc
    rfl
  · intro cx hc
    subst hc
    simp [ctxOr_some]

/-- Claim C10 witness: a Timer named `"w"` with context `[("k","v")]`,
started at 3 and stopped at 9, yields a record carrying exactly that name
and context, stored in the Timer's `record` accessor. -/
theorem timer_record_round_trip_witness :
    (⟨"w", 3, 9, [("k", "v")]⟩ : TimingRecord).name = "w" ∧
    (⟨"w", 3, 9, [("k", "v")]⟩ : TimingRecord).context = [("k", "v")] ∧
    (⟨"w", [("k", "v")], some 3,
      some ⟨"w", 3, 9, [("k", "v")]⟩⟩ : Timer).record =
      some ⟨"w", 3, 9, [("k", "v")]⟩ := by
  have h := timer_record_round_trip "w" (some [("k", "v")]) 3 9
    ⟨"w", [("k", "v")], some 3, some ⟨"w", 3, 9, [("k", "v")]⟩⟩
    ⟨"w", 3, 9, [("k", "v")]⟩ (by decide)
  exact ⟨h.1, h.2.2.2.2.1 [("k", "v")] rfl, h.2.2.2.2.2.1⟩

end Nanowatch
